import Mathlib

/-!
Verification development for the dorkbot target store, fingerprint engine and
blocklist matcher (`src/dorkbot/dorkbot.py`).

The Python source is shallowly embedded: pure helpers become Lean functions,
the SQL-backed `TargetDatabase` becomes explicit state passing over a `Store`
value whose fields mirror the schema
(`targets(url PRIMARY KEY, source, scanned DEFAULT 0)`,
`fingerprints(fingerprint PRIMARY KEY)`), and fallible paths return
`Except`/sum types.  External collaborators that the repository explicitly does
not implement (the regex engine, the `ipaddress` library beyond what the claims
exercise, the SQL engines beyond their documented statement semantics, DNS
resolution, `hashlib`) are modelled at the interface granularity the source
relies on; each such spot carries a comment saying exactly what is abstracted.
-/

namespace Dorkbot

/-! ## Character-list utilities

All the string splitting the source performs (`str.split` on `"&"`, `"/"`,
`"="`, `":"`, `"."`, `"|"`-joins, ...) uses single-character separators, so we
implement splitting on lists of characters once and reuse it everywhere. -/

/-- Split a character list at every occurrence of `sep`.
Mirrors Python `str.split(sep)`: the result is never empty, and
`"".split(sep) == [""]`. -/
def splitOnChar (sep : Char) : List Char → List (List Char)
  | [] => [[]]
  | c :: cs =>
    let r := splitOnChar sep cs
    if c = sep then [] :: r
    else
      match r with
      | h :: t => (c :: h) :: t
      | [] => [[c]]

/-- Python `str.split(sep, 1)` restricted to the information the source uses:
`some (before, after)` when `sep` occurs (split at the first occurrence),
`none` otherwise. -/
def splitFirstChar (sep : Char) : List Char → Option (List Char × List Char)
  | [] => none
  | c :: cs =>
    if c = sep then some ([], cs)
    else (splitFirstChar sep cs).map (fun p => (c :: p.1, p.2))

/-- Split a string on a single-character separator, Python `str.split(sep)`. -/
def strSplit (sep : Char) (s : String) : List String :=
  (splitOnChar sep s.toList).map String.mk

/-- Python `str.startswith(pat)` on character lists. -/
def startsWithChars : List Char → List Char → Bool
  | [], _ => true
  | _ :: _, [] => false
  | p :: ps, c :: cs => p = c && startsWithChars ps cs

/-- Python `str.startswith(pat)`. -/
def strStarts (s pat : String) : Bool :=
  startsWithChars pat.toList s.toList

/-- Python `sep.join(parts)`. -/
def joinWith (sep : String) : List String → String
  | [] => ""
  | [x] => x
  | x :: y :: xs => x ++ sep ++ joinWith sep (y :: xs)

/-- Characters of a list after the last occurrence of `sep` (the whole list
when `sep` is absent); Python `s.rpartition(sep)[2]` as used by
`urllib.parse`'s `hostname` accessor. -/
def afterLastChar (sep : Char) (cs : List Char) : List Char :=
  ((cs.reverse.takeWhile (fun c => c ≠ sep))).reverse

/-! ## urlparse model

`urllib.parse.urlparse` is standard-library code the repository calls but does
not implement.  We model the generic-URL grammar it applies to the inputs the
source feeds it: optional `scheme:`, optional `//netloc` delimited by
`/?#`, fragment after the first `#`, query after the first `?`, path the rest.
-/

structure UrlParts where
  scheme : String
  netloc : String
  path : String
  query : String
  fragment : String
deriving DecidableEq, Repr

/-- Valid non-initial scheme characters (letters, digits, `+`, `-`, `.`). -/
def isSchemeChar (c : Char) : Bool :=
  c.isAlpha || c.isDigit || c = '+' || c = '-' || c = '.'

/-- Helper for `splitScheme`: accumulate scheme characters until `:`. -/
def splitSchemeGo (acc : List Char) : List Char → Option (List Char × List Char)
  | [] => none
  | c :: rest =>
    if c = ':' then some (acc.reverse, rest)
    else if isSchemeChar c then splitSchemeGo (c :: acc) rest
    else none

/-- Detach `scheme:` from a URL when present: the scheme must start with a
letter, continue with scheme characters, and be terminated by `:`. -/
def splitScheme (cs : List Char) : Option (List Char × List Char) :=
  match cs with
  | [] => none
  | c :: rest => if c.isAlpha then splitSchemeGo [c] rest else none

/-- Take characters of the network location: everything up to the first of
`/`, `?`, `#`.  Returns `(netloc, remainder)`. -/
def takeNetloc : List Char → List Char × List Char
  | [] => ([], [])
  | c :: cs =>
    if c = '/' || c = '?' || c = '#' then ([], c :: cs)
    else
      let (a, b) := takeNetloc cs
      (c :: a, b)

/-- Model of `urllib.parse.urlparse` (allow_fragments = True). -/
def urlparse (url : String) : UrlParts :=
  let cs := url.toList
  let (scheme, rest) :=
    match splitScheme cs with
    | some (sch, r) => (sch.map Char.toLower, r)
    | none => (([] : List Char), cs)
  let (netloc, rest) :=
    match rest with
    | '/' :: '/' :: r => takeNetloc r
    | _ => ([], rest)
  let (rest, fragment) :=
    match splitFirstChar '#' rest with
    | some (a, b) => (a, b)
    | none => (rest, [])
  let (path, query) :=
    match splitFirstChar '?' rest with
    | some (a, b) => (a, b)
    | none => (rest, [])
  ⟨String.mk scheme, String.mk netloc, String.mk path, String.mk query,
    String.mk fragment⟩

/-- `urlparse(...).hostname`: strip user-info (after the last `@`), strip the
`:port` suffix, lowercase; `None` when empty.  (The bracketed IPv6 netloc form
is not exercised by any claim and is not modelled.) -/
def hostnameOfNetloc (netloc : String) : Option String :=
  let host := (afterLastChar '@' netloc.toList).takeWhile (fun c => c ≠ ':')
  if host.isEmpty then none else some (String.mk (host.map Char.toLower))

/-! ## Fingerprint engine (`generate_fingerprint`, `generate_hash`) -/

/-- The query parameters kept by `generate_fingerprint`: Python
`split = param.split("=", 1); if len(split) == 2 and split[1]:` keeps the
parameter name exactly when `=` occurs and the value part is non-empty. -/
def paramName (param : String) : Option String :=
  match splitFirstChar '=' param.toList with
  | some (name, value) => if value.isEmpty then none else some (String.mk name)
  | none => none

/-- Names of the query parameters with a non-empty value, in query order. -/
def fpParams (query : String) : List String :=
  (strSplit '&' query).filterMap paramName

/-- Code-point lexicographic order on character lists: Python's `<=` on
`str`. -/
def lexLe : List Char → List Char → Bool
  | [], _ => true
  | _ :: _, [] => false
  | a :: as, b :: bs =>
    if a.toNat < b.toNat then true
    else if b.toNat < a.toNat then false
    else lexLe as bs

/-- Python string comparison `a <= b`. -/
def strLe (a b : String) : Bool :=
  lexLe a.toList b.toList

/-- Insert into a sorted list of strings. -/
def orderedInsertStr (x : String) : List String → List String
  | [] => [x]
  | y :: ys => if strLe x y then x :: y :: ys else y :: orderedInsertStr x ys

/-- Python `sorted` on strings: the ascending code-point-lexicographic
arrangement (equal strings are identical, so stability is moot). -/
def sortStrings : List String → List String
  | [] => []
  | x :: xs => orderedInsertStr x (sortStrings xs)

/-- Number of `/` characters in the parsed path (`url_parts.path.count("/")`). -/
def pathDepth (url : String) : Nat :=
  ((urlparse url).path.toList.filter (fun c => c = '/')).length

/-- Last path segment (`url_parts.path.split("/")[-1]`; `split` always yields
a non-empty list, so indexing `[-1]` is total). -/
def lastSegment (url : String) : String :=
  (strSplit '/' (urlparse url).path).getLastD ""

/-- The canonical pre-hash string of `generate_fingerprint`:
`"|".join((netloc, str(depth), page, ",".join(sorted(params))))`. -/
def fingerprintPre (url : String) : String :=
  joinWith "|"
    [(urlparse url).netloc, toString (pathDepth url), lastSegment url,
      joinWith "," (sortStrings (fpParams (urlparse url).query))]

/-- `generate_hash`: the source computes `hashlib.md5(s.encode()).hexdigest()`.
`hashlib` is an external library the repository explicitly does not implement
(spec §1); every claim at issue concerns only which canonical strings are fed
to the hash, so the hash is modelled as an injective encoding of its input
(the identity).  Facts asserting *distinct* fingerprints are therefore stated
on `fingerprintPre`, the pre-hash canonical string, where they are
hash-independent. -/
def generate_hash (s : String) : String := s

/-- Model of `generate_fingerprint` (source lines 391-402). -/
def generate_fingerprint (url : String) : String :=
  generate_hash (fingerprintPre url)

/-! ## Target store state

Logical schema (`TargetDatabase.__init__`):
`targets(url VARCHAR PRIMARY KEY, source VARCHAR, scanned INTEGER DEFAULT 0)`
and `fingerprints(fingerprint VARCHAR PRIMARY KEY)`.  `scanned` is only ever
written as `0`/`1`, so it is modelled as `Bool`; `source` is nullable.  Tables
are modelled as lists of rows in table order; the `PRIMARY KEY` uniqueness of
`url` appears as a `Nodup` hypothesis where a theorem needs it. -/

structure Row where
  url : String
  source : Option String
  scanned : Bool
deriving DecidableEq, Repr

structure Store where
  targets : List Row
  fingerprints : List String
deriving DecidableEq, Repr

/-- The three backend drivers selected by the connection-string prefix in
`TargetDatabase.__init__`: no recognized prefix means the embedded `sqlite3`
file store (`INSERT OR REPLACE`), `postgresql://` means `psycopg2`
(`INSERT ... ON CONFLICT DO NOTHING`), `phoenixdb://` means `phoenixdb`
(`UPSERT`, autocommit). -/
inductive Backend
  | sqlite3
  | postgresql
  | phoenixdb
deriving DecidableEq, Repr

/-- Effect of `UPDATE targets SET scanned = 1 WHERE url = ?` on the rows. -/
def markScannedRows (url : String) (ts : List Row) : List Row :=
  ts.map fun r => if r.url == url then { r with scanned := true } else r

/-- Store-level view of `mark_scanned` (the successful write; the retry
control flow around it is modelled separately for claim C5). -/
def markScannedStore (s : Store) (url : String) : Store :=
  { s with targets := markScannedRows url s.targets }

/-- `delete_target`: `DELETE FROM targets WHERE url=(?)` (source lines
551-557); deleting an absent row is a no-op. -/
def delete_target (s : Store) (url : String) : Store :=
  { s with targets := s.targets.filter fun r => r.url != url }

/-- `DELETE FROM fingerprints` plus `UPDATE targets SET scanned = 0`:
`flush_fingerprints` (source lines 592-600). -/
def flush_fingerprints (s : Store) : Store :=
  ⟨s.targets.map fun r => { r with scanned := false }, []⟩

/-- `DELETE FROM targets`: `flush_targets` (source lines 602-609). -/
def flush_targets (s : Store) : Store :=
  { s with targets := [] }

/-- Effect of `{INSERT OR REPLACE / INSERT ... ON CONFLICT DO NOTHING /
UPSERT} INTO fingerprints VALUES (?)` on the fingerprint set: the value is the
primary key, so a duplicate insert is a no-op under every driver. -/
def insertFingerprint (fps : List String) (fp : String) : List String :=
  if fps.contains fp then fps else fps ++ [fp]

/-- `add_target(url, source)` (source lines 534-540).  The SQL text is
`"%s INTO targets (url, source) VALUES (?, ?) %s" % (self.insert, self.conflict)`,
so the statement semantics differ per driver:
* `sqlite3`: `INSERT OR REPLACE` deletes any row with the same primary key and
  inserts a fresh row; the unspecified `scanned` column takes its
  `DEFAULT 0`.
* `postgresql`: `INSERT ... ON CONFLICT DO NOTHING` leaves an existing row
  entirely unchanged; a fresh row gets `scanned = DEFAULT 0`.
* `phoenixdb`: `UPSERT` writes the named columns (`url`, `source`) and keeps
  the other columns of an existing row; a fresh row starts unscanned. -/
def add_target (b : Backend) (s : Store) (url : String) (source : Option String) :
    Store :=
  match b with
  | .sqlite3 =>
    { s with targets := (s.targets.filter fun r => r.url != url) ++ [⟨url, source, false⟩] }
  | .postgresql =>
    if s.targets.any fun r => r.url == url then s
    else { s with targets := s.targets ++ [⟨url, source, false⟩] }
  | .phoenixdb =>
    if s.targets.any fun r => r.url == url then
      { s with targets := s.targets.map fun r =>
          if r.url == url then ⟨url, source, r.scanned⟩ else r }
    else { s with targets := s.targets ++ [⟨url, source, false⟩] }

/-- `add_targets(urls, source)` (source lines 542-549): `executemany` of the
same statement, one row-parameter tuple per url, in order. -/
def add_targets (b : Backend) (s : Store) (urls : List String)
    (source : Option String) : Store :=
  urls.foldl (fun s' u => add_target b s' u source) s

/-- `SELECT ... FROM targets` row lookup by primary key. -/
def lookupRow (s : Store) (url : String) : Option Row :=
  s.targets.find? fun r => r.url == url

/-- Urls of the rows selected by `SELECT url FROM targets WHERE scanned != 1`,
in table order (the `random` variant is not exercised by the claims). -/
def unscannedUrls (s : Store) : List String :=
  (s.targets.filter fun r => !r.scanned).map (·.url)

/-- `get_urls()` as called by `prune` (all defaults): `SELECT url FROM
targets`, one plain url per row. -/
def get_urls_plain (s : Store) : List String :=
  s.targets.map (·.url)

/-! ## DB-API cursor model for `get_next_target`

`get_next_target` (source lines 505-532) drives the whole loop through a
*single* cursor `c`: the initial `SELECT url FROM targets WHERE scanned != 1`,
the `UPDATE` issued by `mark_scanned(url, c)`, the fingerprint `SELECT` issued
by `get_scanned(fingerprint, c)` and the final fingerprint insert.  Under the
Python DB-API (sqlite3/psycopg2/phoenixdb alike) a cursor holds one active
statement: each `execute` discards the unfetched rows of the previous one.
The cursor is therefore modelled as its list of pending (unfetched) rows, and
every `execute` replaces it. -/

structure Cursor where
  pending : List (List String)
deriving DecidableEq, Repr

/-- `cursor.fetchone()`: next pending row, or `None` when exhausted (also
after a non-SELECT statement, whose result set is empty). -/
def fetchone (c : Cursor) : Option (List String) × Cursor :=
  (c.pending.head?, ⟨c.pending.tail⟩)

/-- `mark_scanned(url, c)` under successful execution: `UPDATE targets SET
scanned = 1 WHERE url = ?` on cursor `c` — the update is applied and the
cursor's previous result set is discarded. -/
def mark_scanned_c (s : Store) (url : String) (_c : Cursor) : Store × Cursor :=
  (markScannedStore s url, ⟨[]⟩)

/-- `get_scanned(fingerprint, c)` under successful execution: `SELECT
fingerprint FROM fingerprints WHERE fingerprint = (?)` on cursor `c`, then one
`fetchone`; truthy exactly when the fingerprint row exists.  (Fingerprint
strings are non-empty, so row[0] is truthy iff a row was returned.) -/
def get_scanned_c (s : Store) (fp : String) (_c : Cursor) : Bool × Cursor :=
  let results := (s.fingerprints.filter fun f => f == fp).map fun f => [f]
  ((results.head?.isSome : Bool), ⟨results.tail⟩)

/-- The `while True` body of `get_next_target`, with fuel for termination
(the fuel passed by `get_next_target` provably exceeds the iterations the
loop can make, since every skip empties the cursor). -/
def gntLoop (s : Store) (c : Cursor) : Nat → Store × Option String
  | 0 => (s, none)
  | fuel + 1 =>
    match (fetchone c).1 with
    | none => (s, none)
    | some row =>
      let c₁ := (fetchone c).2
      let url := row.headD ""
      let fp := generate_fingerprint url
      let s₁ := (mark_scanned_c s url c₁).1
      let c₂ := (mark_scanned_c s url c₁).2
      let found := (get_scanned_c s₁ fp c₂).1
      let c₃ := (get_scanned_c s₁ fp c₂).2
      if found then gntLoop s₁ c₃ fuel
      else ({ s₁ with fingerprints := insertFingerprint s₁.fingerprints fp }, some url)

/-- Model of `get_next_target` (source lines 505-532, `random=False`): execute
the unscanned-targets `SELECT` on a fresh cursor and run the claim loop. -/
def get_next_target (s : Store) : Store × Option String :=
  let rows := (unscannedUrls s).map fun u => [u]
  gntLoop s ⟨rows⟩ (rows.length + 2)

/-! ## `get_urls` with the `--source` flag (claim C10) -/

/-- The Python `source` parameter of `get_urls`: `False` (default), `True`
(bare `--source` flag) or a string label. -/
inductive SourceArg
  | falseArg
  | trueArg
  | strArg (q : String)
deriving DecidableEq, Repr

/-- Modelled Python exceptions that escape an operation. -/
inductive PyErr
  | typeError
  | unboundLocal
deriving DecidableEq, Repr

/-- The rows selected by `get_urls` (source lines 475-494): optional
`WHERE scanned != 1`, plus `source = ?` only when `source` is a *truthy*
string (`if source and source is not True`; the empty string is falsy and adds
no filter). -/
def selectRows (s : Store) (unscannedOnly : Bool) (src : SourceArg) : List Row :=
  let base := if unscannedOnly then s.targets.filter (fun r => !r.scanned) else s.targets
  match src with
  | .strArg q => if q = "" then base else base.filter fun r => r.source == some q
  | _ => base

/-- The list comprehension `[" | ".join(row) for row in c.fetchall()]` when
`source is True`, i.e. each row is `(url, source)`: joining raises `TypeError`
at the first row whose `source` is NULL (`None` is not a string). -/
def renderRowsWithSource : List Row → Except PyErr (List String)
  | [] => .ok []
  | r :: rs =>
    match r.source with
    | some sv => (renderRowsWithSource rs).map fun l => (r.url ++ " | " ++ sv) :: l
    | none => .error .typeError

/-- Model of `get_urls` (source lines 475-503, `randomize=False`; the shuffle
happens after the rows are rendered and does not interact with the claim). -/
def get_urls (s : Store) (unscannedOnly : Bool) (src : SourceArg) :
    Except PyErr (List String) :=
  match src with
  | .trueArg => renderRowsWithSource (selectRows s unscannedOnly .trueArg)
  | _ => .ok ((selectRows s unscannedOnly src).map (·.url))

/-! ## `prune` (source lines 611-634)

`prune` reads all urls once (`self.get_urls()`), then walks them with an
in-pass fingerprint set: a url whose fingerprint is in the pass set or in the
store's fingerprint table is marked scanned; otherwise a url matching any
blocklist is deleted; otherwise its fingerprint joins the pass set.  Each url
gets a fresh cursor (`with self.db, closing(self.db.cursor())` inside the
loop), so no cursor state is carried across iterations.  The composite test
`True in [blocklist.match(Target(url)) for blocklist in blocklists]` is a pure
predicate of the url once the resolver is fixed; it is passed in as
`bl : String → Bool`.  `randomize=False` (the deterministic table order). -/

def pruneLoop (bl : String → Bool) (pass : List String) (s : Store) :
    List String → Store
  | [] => s
  | u :: rest =>
    let fp := generate_fingerprint u
    if pass.contains fp || s.fingerprints.contains fp then
      pruneLoop bl pass (markScannedStore s u) rest
    else if bl u then
      pruneLoop bl pass (delete_target s u) rest
    else
      pruneLoop bl (fp :: pass) s rest

/-- Model of `TargetDatabase.prune`. -/
def prune (bl : String → Bool) (s : Store) : Store :=
  pruneLoop bl [] s (get_urls_plain s)

/-! ## Retry loops of `get_scanned` / `mark_scanned` (claim C5)

Source lines 559-590.  Both methods wrap their single statement in
`for i in range(3)`, treating an error whose text contains one of the two
connection-loss phrases as transient (log a warning, `self.connect()`,
`continue`) and any other `self.module.Error` as fatal (`sys.exit(1)`).
The per-attempt outcome of `cursor.execute` is an environment input, modelled
as a function from the attempt index. -/

/-- Outcome of one `cursor.execute` attempt: success, a transient
connection-loss error (message matched by the substring tests), or any other
database error. -/
inductive Attempt
  | success
  | transient
  | fatal
deriving DecidableEq, Repr

/-- Result of a `get_scanned` call.  `returns v`: the method returns
(`v = some fp` when the fingerprint row exists, `none` standing for Python's
`False`).  `fatalExit`: `sys.exit(1)` after a logged error.  `unboundLocal`:
the `for` loop exhausted all 3 attempts without ever binding `row`, so the
trailing `if row:` raises `UnboundLocalError` — an unhandled exception, not a
logged exit. -/
inductive GsResult
  | returns (v : Option String)
  | fatalExit
  | unboundLocal
deriving DecidableEq, Repr

/-- The `for i in range(3)` loop of `get_scanned`: break on success, retry on
transient (after `self.connect()`), exit on any other error; falling off the
loop leaves `row` unbound. -/
def gsLoop (att : Nat → Attempt) (rows : Nat → Option String) :
    Nat → Nat → GsResult
  | 0, _ => .unboundLocal
  | fuel + 1, i =>
    match att i with
    | .success => .returns (rows i)
    | .transient => gsLoop att rows fuel (i + 1)
    | .fatal => .fatalExit

/-- Model of `get_scanned`'s control flow (source lines 559-577): `att i` is
the outcome of the `i`-th execute attempt and `rows i` the row the `i`-th
attempt would fetch on success. -/
def get_scanned_retry (att : Nat → Attempt) (rows : Nat → Option String) :
    GsResult :=
  gsLoop att rows 3 0

/-- Result of a `mark_scanned` call: the method either returns — with
`flagSet` recording whether any attempt actually executed the `UPDATE` — or
exits fatally.  There is no case for exhausted retries: the loop just ends. -/
inductive MsResult
  | returns (flagSet : Bool)
  | fatalExit
deriving DecidableEq, Repr

/-- The `for i in range(3)` loop of `mark_scanned` (source lines 579-590).
Note the source has no `break`: a successful execute still lets the loop run
the remaining iterations (re-executing the idempotent `UPDATE`). -/
def msLoop (att : Nat → Attempt) : Nat → Nat → Bool → MsResult
  | 0, _, flag => .returns flag
  | fuel + 1, i, flag =>
    match att i with
    | .success => msLoop att fuel (i + 1) true
    | .transient => msLoop att fuel (i + 1) flag
    | .fatal => .fatalExit

/-- Model of `mark_scanned`'s control flow. -/
def mark_scanned_retry (att : Nat → Attempt) : MsResult :=
  msLoop att 3 0 false

/-! ## IP networks and the blocklist (`Blocklist`, `Target`)

The repository delegates IP parsing and containment to the standard
`ipaddress` library (spec §1: "it does not implement the ... IP-range
library").  The claims only exercise IPv4 literals, so `ip_network` is
modelled for dotted-quad IPv4 (strict, host bits must be zero, `/32` default,
no leading zeros), and an address is a `Nat` below `2^32`. -/

structure IpNet where
  base : Nat
  plen : Nat
deriving DecidableEq, Repr

/-- Parse a non-empty all-digit character list as a decimal number. -/
def parseDigitsGo (acc : Nat) : List Char → Option Nat
  | [] => some acc
  | c :: cs =>
    if c.isDigit then parseDigitsGo (acc * 10 + (c.toNat - 48)) cs else none

/-- One dotted-quad octet: decimal, ≤ 255, no leading zero. -/
def parseOctet (s : String) : Option Nat :=
  match s.toList with
  | [] => none
  | ['0'] => some 0
  | '0' :: _ :: _ => none
  | cs =>
    match parseDigitsGo 0 cs with
    | some n => if n ≤ 255 then some n else none
    | none => none

/-- Dotted-quad IPv4 address as a `Nat`. -/
def parseIPv4 (s : String) : Option Nat :=
  match (strSplit '.' s).mapM parseOctet with
  | some [a, b, c, d] => some (((a * 256 + b) * 256 + c) * 256 + d)
  | _ => none

/-- CIDR prefix length: decimal, ≤ 32, no leading zero. -/
def parsePlen (s : String) : Option Nat :=
  match s.toList with
  | [] => none
  | ['0'] => some 0
  | '0' :: _ :: _ => none
  | cs =>
    match parseDigitsGo 0 cs with
    | some n => if n ≤ 32 then some n else none
    | none => none

/-- Model of `ipaddress.ip_network` on IPv4 inputs: a bare address becomes a
`/32`, `addr/plen` requires the host bits to be zero (strict mode, the
default the source uses). -/
def ip_network (s : String) : Option IpNet :=
  match strSplit '/' s with
  | [a] => (parseIPv4 a).map fun base => ⟨base, 32⟩
  | [a, p] =>
    match parseIPv4 a, parsePlen p with
    | some base, some pl =>
      if base % 2 ^ (32 - pl) = 0 then some ⟨base, pl⟩ else none
    | _, _ => none
  | _ => none

/-- `addr in network` of `ipaddress`: the address's network bits equal the
network's. -/
def ipInNet (a : Nat) (n : IpNet) : Bool :=
  a / 2 ^ (32 - n.plen) == n.base / 2 ^ (32 - n.plen)

/-- The in-memory rule sets a `Blocklist` accumulates (`self.ip_set`,
`self.host_set`, `self.regex_set`).  Python sets are modelled as
duplicate-free lists in insertion order. -/
structure BlSets where
  ip_set : List IpNet
  host_set : List String
  regex_set : List String
deriving DecidableEq, Repr

/-- `set.add`: no-op on a present element. -/
def insertUniq [BEq α] (a : α) (l : List α) : List α :=
  if l.contains a then l else l ++ [a]

/-- `item.split(":")[1]` — note this splits at *every* colon and keeps the
second piece. -/
def part1 (item : String) : String :=
  (strSplit ':' item).getD 1 ""

/-- Model of `Blocklist.parse_list` (source lines 752-772).  The `ip:` branch
is modelled exactly as written: on a `ValueError` from `ip_network` the
`except` clause only logs, and control falls through to
`self.ip_set.add(ip_net)` — which re-adds the network bound by a *previous*
successful `ip:` item (threaded here as `last`), or raises
`UnboundLocalError` when no `ip:` item has parsed yet.  Unrecognized prefixes
log a warning and are skipped.  (The regex recompilation at the end touches
only the derived compiled pattern, not the three sets.) -/
def parseListGo (st : BlSets) (last : Option IpNet) :
    List String → Except PyErr BlSets
  | [] => .ok st
  | item :: rest =>
    if strStarts item "ip:" then
      match ip_network (part1 item) with
      | some net => parseListGo { st with ip_set := insertUniq net st.ip_set } (some net) rest
      | none =>
        match last with
        | some prev => parseListGo { st with ip_set := insertUniq prev st.ip_set } last rest
        | none => .error .unboundLocal
    else if strStarts item "host:" then
      parseListGo { st with host_set := insertUniq (part1 item) st.host_set } last rest
    else if strStarts item "regex:" then
      parseListGo { st with regex_set := insertUniq (part1 item) st.regex_set } last rest
    else
      parseListGo st last rest

/-- `Blocklist.parse_list(items)`. -/
def parse_list (st : BlSets) (items : List String) : Except PyErr BlSets :=
  parseListGo st none items

/-- Result of the single-item `Blocklist.add` command. -/
inductive AddResult
  | ok (st : BlSets)
  | fatalExit
deriving DecidableEq, Repr

/-- Model of `Blocklist.add` (source lines 800-829): a malformed `ip:` item or
an unrecognized prefix logs an error and calls `sys.exit(1)`; otherwise the
item joins the matching set (and is written to the backing store, not part of
the in-memory state modelled here). -/
def blocklistAdd (st : BlSets) (item : String) : AddResult :=
  if strStarts item "ip:" then
    match ip_network (part1 item) with
    | some net => .ok { st with ip_set := insertUniq net st.ip_set }
    | none => .fatalExit
  else if strStarts item "host:" then
    .ok { st with host_set := insertUniq (part1 item) st.host_set }
  else if strStarts item "regex:" then
    .ok { st with regex_set := insertUniq (part1 item) st.regex_set }
  else
    .fatalExit

/-- A `Target` as far as `Blocklist.match` consumes it (`Target.__init__`,
source lines 638-653): the raw url, the parsed lowercased hostname (absent
when the URL has none), and the best-effort resolved IP (absent when
resolution failed — the `socket.gaierror` path sets `self.ip = None`). -/
structure Target where
  url : String
  host : Option String
  ip : Option Nat

/-- `Target(url)` under a fixed resolver: `resolve h` is
`ipaddress.ip_address(socket.gethostbyname(h))` on success and `none` on
`socket.gaierror`.  (When the URL has no hostname at all the source's blanket
`except Exception` path leaves the `ip` attribute unset after logging; no
claim exercises that corner and it is modelled as `none`.) -/
def Target.ofUrl (resolve : String → Option Nat) (url : String) : Target :=
  let h := hostnameOfNetloc (urlparse url).netloc
  { url := url
    host := h
    ip := match h with
          | some hn => resolve hn
          | none => none }

/-- The compiled form `Blocklist.match` consults: the two membership sets plus
`self.regex`, the single pattern compiled from `"|".join(self.regex_set)` —
`none` when the set is empty (`if pattern:` fails).  The regex engine is an
external collaborator (spec §1); the compiled pattern is modelled as the
predicate `rx : String → Bool` with `rx u = true` iff `pattern.match(u)`
succeeds, i.e. iff the alternation matches `u` anchored at its start. -/
structure Blocklist where
  ip_set : List IpNet
  host_set : List String
  regex : Option (String → Bool)

/-- Model of `Blocklist.match` (source lines 846-857): three tests with early
return — compiled regex on the full url, exact hostname membership (`None in
host_set` is `False`), then `target.ip and target.ip in ip_net` over the IP
networks (falsy `None` short-circuits, so a missing IP never errors). -/
def Blocklist.matchTarget (b : Blocklist) (t : Target) : Bool :=
  if (match b.regex with | some rx => rx t.url | none => false) then true
  else if (match t.host with | some h => b.host_set.contains h | none => false) then true
  else b.ip_set.any fun net =>
    match t.ip with
    | some a => ipInNet a net
    | none => false

/-- The regex test of `Blocklist.match` in isolation. -/
def regexTest (b : Blocklist) (t : Target) : Bool :=
  match b.regex with
  | some rx => rx t.url
  | none => false

/-- The exact-hostname test of `Blocklist.match` in isolation. -/
def hostTest (b : Blocklist) (t : Target) : Bool :=
  match t.host with
  | some h => b.host_set.contains h
  | none => false

/-- The IP-network test of `Blocklist.match` in isolation. -/
def ipTest (b : Blocklist) (t : Target) : Bool :=
  b.ip_set.any fun net =>
    match t.ip with
    | some a => ipInNet a net
    | none => false

/-! ## Operation alphabet for the fingerprint-persistence invariant (C9) -/

/-- The store operations quantified over by claim C9. -/
inductive Op
  | addT (b : Backend) (url : String) (source : Option String)
  | addTs (b : Backend) (urls : List String) (source : Option String)
  | delT (url : String)
  | next
  | mark (url : String)
  | pruneOp (bl : String → Bool)
  | flushT

/-- State effect of one operation (returned values projected away). -/
def applyOp (s : Store) : Op → Store
  | .addT b url source => add_target b s url source
  | .addTs b urls source => add_targets b s urls source
  | .delT url => delete_target s url
  | .next => (get_next_target s).1
  | .mark url => markScannedStore s url
  | .pruneOp bl => prune bl s
  | .flushT => flush_targets s

/-- A whole sequence of operations. -/
def applyOps (s : Store) (ops : List Op) : Store :=
  ops.foldl applyOp s

/-! ## Pure decomposition of `prune` (for the idempotence proof, C8)

During one prune pass the store's target rows are only *written* (marked
scanned or deleted), never read: every branch decision depends on the url
list read up front, the constant fingerprint table and the in-pass set.  The
pass therefore factors into a pure list of row actions computed from the url
sequence, applied to the rows. -/

/-- One row action a prune pass emits. -/
inductive PruneAct
  | mark (url : String)
  | del (url : String)
deriving DecidableEq, Repr

/-- The url an action touches. -/
def PruneAct.actUrl : PruneAct → String
  | .mark u => u
  | .del u => u

/-- Apply one action to the target rows. -/
def applyAct (ts : List Row) : PruneAct → List Row
  | .mark u => markScannedRows u ts
  | .del u => ts.filter fun r => r.url != u

/-- Apply a list of actions left to right. -/
def applyActs (acts : List PruneAct) (ts : List Row) : List Row :=
  acts.foldl applyAct ts

/-- The actions one prune pass emits on a url sequence, given the (constant)
stored fingerprint table `F` and in-pass set `pass`. -/
def pruneActs (F : List String) (bl : String → Bool) (pass : List String) :
    List String → List PruneAct
  | [] => []
  | u :: rest =>
    let fp := generate_fingerprint u
    if pass.contains fp || F.contains fp then
      .mark u :: pruneActs F bl pass rest
    else if bl u then
      .del u :: pruneActs F bl pass rest
    else
      pruneActs F bl (fp :: pass) rest

/-! # Theorems -/

/-! ## General helper lemmas -/

theorem insertFingerprint_mem_mono {fps : List String} {fp fp' : String}
    (h : fp ∈ fps) : fp ∈ insertFingerprint fps fp' := by
  unfold insertFingerprint
  split
  · exact h
  · exact List.mem_append_left _ h

theorem markScannedStore_fingerprints (s : Store) (url : String) :
    (markScannedStore s url).fingerprints = s.fingerprints := rfl

theorem delete_target_fingerprints (s : Store) (url : String) :
    (delete_target s url).fingerprints = s.fingerprints := rfl

/-! ## Claim C7: flush semantics -/

theorem clearScanned_filter_unscanned (ts : List Row) :
    ((ts.map fun r => { r with scanned := false }).filter fun r => !r.scanned)
      = ts.map fun r => { r with scanned := false } := by
  induction ts with
  | nil => rfl
  | cons r rs ih => simp [List.filter, ih]

/-- Claim C7: `flush_fingerprints` deletes every fingerprint row and resets
every target's scanned flag to false (so all urls reappear among the
unscanned, claimable rows) while preserving each row's url and source;
`flush_targets` deletes every target row and leaves the fingerprint table
unchanged. -/
theorem c7_flush_semantics (s : Store) :
    (flush_fingerprints s).fingerprints = []
    ∧ (flush_fingerprints s).targets.map (·.url) = s.targets.map (·.url)
    ∧ (flush_fingerprints s).targets.map (·.source) = s.targets.map (·.source)
    ∧ unscannedUrls (flush_fingerprints s) = s.targets.map (·.url)
    ∧ (flush_targets s).targets = []
    ∧ (flush_targets s).fingerprints = s.fingerprints := by
  refine ⟨rfl, ?_, ?_, ?_, rfl, rfl⟩
  · simp [flush_fingerprints, List.map_map]
  · simp [flush_fingerprints, List.map_map]
  · show ((flush_fingerprints s).targets.filter fun r => !r.scanned).map (·.url) = _
    rw [show (flush_fingerprints s).targets = s.targets.map fun r => { r with scanned := false } from rfl]
    rw [clearScanned_filter_unscanned]
    simp [List.map_map]

/-! ## Claim C4: `Blocklist.match` -/

theorem matchTarget_eq_tests (b : Blocklist) (t : Target) :
    b.matchTarget t = (regexTest b t || hostTest b t || ipTest b t) := by
  cases hR : (match b.regex with | some rx => rx t.url | none => false) <;>
    cases hH : (match t.host with | some h => b.host_set.contains h | none => false) <;>
      simp [Blocklist.matchTarget, regexTest, hostTest, ipTest, hR, hH]

theorem regexTest_iff (b : Blocklist) (t : Target) :
    regexTest b t = true ↔ ∃ rx, b.regex = some rx ∧ rx t.url = true := by
  cases h : b.regex <;> simp [regexTest, h]

theorem hostTest_iff (b : Blocklist) (t : Target) :
    hostTest b t = true ↔ ∃ h, t.host = some h ∧ h ∈ b.host_set := by
  cases h : t.host <;> simp [hostTest, h, List.elem_iff]

theorem ipTest_iff (b : Blocklist) (t : Target) :
    ipTest b t = true ↔ ∃ a, t.ip = some a ∧ ∃ net ∈ b.ip_set, ipInNet a net = true := by
  cases h : t.ip <;> simp [ipTest, h, List.any_eq_true]

/-- Claim C4: `Blocklist.match(target)` returns true iff the compiled regex
matches the url from its start, or the resolved host is exactly a member of
`host_set`, or the resolved IP exists and lies in some network of `ip_set`;
and for a target with no resolved IP the IP test contributes nothing — the
result is just the regex-or-host disjunction, returned without error (the
model is a total function). -/
theorem c4_match_characterization :
    (∀ (b : Blocklist) (t : Target),
      b.matchTarget t = true ↔
        (∃ rx, b.regex = some rx ∧ rx t.url = true)
        ∨ (∃ h, t.host = some h ∧ h ∈ b.host_set)
        ∨ (∃ a, t.ip = some a ∧ ∃ net ∈ b.ip_set, ipInNet a net = true))
    ∧ (∀ (b : Blocklist) (url : String) (host : Option String),
      Blocklist.matchTarget b ⟨url, host, none⟩
        = (regexTest b ⟨url, host, none⟩ || hostTest b ⟨url, host, none⟩)) := by
  constructor
  · intro b t
    rw [matchTarget_eq_tests]
    simp only [Bool.or_eq_true]
    rw [regexTest_iff, hostTest_iff, ipTest_iff]
    exact or_assoc
  · intro b url host
    rw [matchTarget_eq_tests]
    have : ipTest b ⟨url, host, none⟩ = false := by
      simp [ipTest]
    rw [this, Bool.or_false]

/-! ## Claim C5: retry policy of `get_scanned` / `mark_scanned` -/

/-- Claim C5, counterexample: when all three execute attempts fail with a
transient connection-loss error, neither operation escalates to the fatal
logged exit the claim asserts — `mark_scanned` falls off its `for` loop and
returns normally without having set the flag, and `get_scanned` reaches
`if row:` with `row` unbound, raising `UnboundLocalError` instead of exiting
via the logged `sys.exit(1)` path. -/
theorem c5_counterexample :
    mark_scanned_retry (fun _ => .transient) = .returns false
    ∧ get_scanned_retry (fun _ => .transient) (fun _ => none) = .unboundLocal
    ∧ mark_scanned_retry (fun _ => .transient) ≠ .fatalExit
    ∧ get_scanned_retry (fun _ => .transient) (fun _ => none) ≠ .fatalExit := by
  refine ⟨rfl, rfl, by decide, by decide⟩

/-- Claim C5 as amended: inside `claim_next_target`, the fingerprint lookup
(`get_scanned`) and the scanned-flag write (`mark_scanned`) retry a transient
connection-loss error with a fresh connection for at most 3 total attempts,
and any non-transient database error is immediately fatal (logged exit); but
when all 3 attempts fail transiently there is no fatal logged exit:
`get_scanned` aborts with an unhandled `UnboundLocalError` and `mark_scanned`
returns silently, leaving the flag unwritten.  On success within the attempts
`get_scanned` returns the fetched row; `mark_scanned` keeps looping after a
successful write, so a later non-transient error can still make it exit. -/
theorem c5_amended (att : Nat → Attempt) (rows : Nat → Option String) :
    (att 0 = .fatal →
      get_scanned_retry att rows = .fatalExit ∧ mark_scanned_retry att = .fatalExit)
    ∧ (att 0 = .transient → att 1 = .fatal →
      get_scanned_retry att rows = .fatalExit ∧ mark_scanned_retry att = .fatalExit)
    ∧ (att 0 = .transient → att 1 = .transient → att 2 = .fatal →
      get_scanned_retry att rows = .fatalExit ∧ mark_scanned_retry att = .fatalExit)
    ∧ (att 0 = .transient → att 1 = .transient → att 2 = .transient →
      get_scanned_retry att rows = .unboundLocal ∧ mark_scanned_retry att = .returns false)
    ∧ (att 0 = .success → get_scanned_retry att rows = .returns (rows 0))
    ∧ (att 0 = .transient → att 1 = .success →
      get_scanned_retry att rows = .returns (rows 1))
    ∧ (att 0 = .transient → att 1 = .transient → att 2 = .success →
      get_scanned_retry att rows = .returns (rows 2))
    ∧ (att 0 = .success → att 1 = .success → att 2 = .success →
      mark_scanned_retry att = .returns true) := by
  refine ⟨?_, ?_, ?_, ?_, ?_, ?_, ?_, ?_⟩ <;> intro h0
  · exact ⟨by simp [get_scanned_retry, gsLoop, h0],
      by simp [mark_scanned_retry, msLoop, h0]⟩
  · intro h1
    exact ⟨by simp [get_scanned_retry, gsLoop, h0, h1],
      by simp [mark_scanned_retry, msLoop, h0, h1]⟩
  · intro h1 h2
    exact ⟨by simp [get_scanned_retry, gsLoop, h0, h1, h2],
      by simp [mark_scanned_retry, msLoop, h0, h1, h2]⟩
  · intro h1 h2
    exact ⟨by simp [get_scanned_retry, gsLoop, h0, h1, h2],
      by simp [mark_scanned_retry, msLoop, h0, h1, h2]⟩
  · simp [get_scanned_retry, gsLoop, h0]
  · intro h1
    simp [get_scanned_retry, gsLoop, h0, h1]
  · intro h1 h2
    simp [get_scanned_retry, gsLoop, h0, h1, h2]
  · intro h1 h2
    simp [mark_scanned_retry, msLoop, h0, h1, h2]

/-- Claim C5 witness: the amended theorem applied to the all-transient attempt
sequence. -/
theorem c5_amended_witness :
    get_scanned_retry (fun _ => .transient) (fun _ => some "fp") = .unboundLocal
    ∧ mark_scanned_retry (fun _ => .transient) = .returns false :=
  (c5_amended (fun _ => .transient) (fun _ => some "fp")).2.2.2.1 rfl rfl rfl

/-! ## Claim C6: malformed blocklist items -/

/-- Claim C6, code evaluation: a malformed IP literal is *not* warn-and-skip
in `parse_list` — after the `except ValueError` clause logs, control still
reaches `self.ip_set.add(ip_net)`, so the first malformed `ip:` item raises
`UnboundLocalError` (no `ip:` item has bound `ip_net` yet), and a later one
silently re-adds the previously parsed network (a set no-op).  A genuinely
unrecognized prefix *is* warn-and-skip in `parse_list`.  The single-item
`add` command is a hard fatal exit on both malformed IPs and unrecognized
prefixes, as the claim says. -/
theorem c6_code_eval :
    parse_list ⟨[], [], []⟩ ["ip:notanip"] = .error .unboundLocal
    ∧ parse_list ⟨[], [], []⟩ ["ip:10.0.0.0/24", "ip:notanip"]
        = .ok ⟨[⟨167772160, 24⟩], [], []⟩
    ∧ parse_list ⟨[], [], []⟩ ["bogus"] = .ok ⟨[], [], []⟩
    ∧ blocklistAdd ⟨[], [], []⟩ "ip:notanip" = .fatalExit
    ∧ blocklistAdd ⟨[], [], []⟩ "bogus" = .fatalExit := by
  exact ⟨rfl, rfl, rfl, rfl, rfl⟩

/-! ## Claim C2: the claim loop of `get_next_target` -/

/-- Claim C2, code evaluation: with two unscanned targets whose fingerprints
differ, the first already recorded in the fingerprint table and the second
novel, `get_next_target` marks the first target scanned and then returns
`None` — it never advances to (or returns) the novel second target.  The
`continue` lands on `c.fetchone()` after `mark_scanned` and `get_scanned`
have re-executed statements on the same single cursor, so the pending rows of
the original unscanned-targets `SELECT` are gone: the fetch reads the
already-exhausted fingerprint lookup result and yields `None`. -/
theorem c2_code_eval :
    get_next_target
        ⟨[⟨"http://a/p?x=1", none, false⟩, ⟨"http://b/q?y=1", none, false⟩],
          ["a|1|p|x"]⟩
      = (⟨[⟨"http://a/p?x=1", none, true⟩, ⟨"http://b/q?y=1", none, false⟩],
          ["a|1|p|x"]⟩, none)
    ∧ generate_fingerprint "http://a/p?x=1" ∈ (["a|1|p|x"] : List String)
    ∧ generate_fingerprint "http://b/q?y=1" ∉ (["a|1|p|x"] : List String) := by
  exact ⟨by decide, by decide, by decide⟩

/-! ## Claim C3: the fingerprint function

The sorting step is the only part of `generate_fingerprint` that is not a
plain projection, so the order lemmas below establish that `sortStrings` is a
canonical form: permuted inputs sort identically. -/

theorem char_eq_of_toNat_eq {a b : Char} (h : a.toNat = b.toNat) : a = b :=
  Char.ext (UInt32.ext h)

theorem lexLe_total : ∀ as bs : List Char, lexLe as bs = true ∨ lexLe bs as = true
  | [], _ => Or.inl rfl
  | _ :: _, [] => Or.inr rfl
  | a :: as, b :: bs => by
    by_cases hab : a.toNat < b.toNat
    · left
      simp [lexLe, hab]
    · by_cases hba : b.toNat < a.toNat
      · right
        simp [lexLe, hba]
      · rcases lexLe_total as bs with h | h
        · left
          simp [lexLe, hab, hba, h]
        · right
          simp [lexLe, hab, hba, h]

theorem lexLe_antisymm : ∀ {as bs : List Char},
    lexLe as bs = true → lexLe bs as = true → as = bs
  | [], [], _, _ => rfl
  | [], _ :: _, _, h2 => by cases h2
  | _ :: _, [], h1, _ => by cases h1
  | a :: as, b :: bs, h1, h2 => by
    by_cases hab : a.toNat < b.toNat
    · exfalso
      rw [show lexLe (b :: bs) (a :: as)
            = (if b.toNat < a.toNat then true
               else if a.toNat < b.toNat then false
               else lexLe bs as) from rfl] at h2
      rw [if_neg (by omega), if_pos hab] at h2
      cases h2
    · by_cases hba : b.toNat < a.toNat
      · exfalso
        rw [show lexLe (a :: as) (b :: bs)
              = (if a.toNat < b.toNat then true
                 else if b.toNat < a.toNat then false
                 else lexLe as bs) from rfl] at h1
        rw [if_neg hab, if_pos hba] at h1
        cases h1
      · have hc : a = b := char_eq_of_toNat_eq (by omega)
        subst hc
        rw [show lexLe (a :: as) (a :: bs)
              = (if a.toNat < a.toNat then true
                 else if a.toNat < a.toNat then false
                 else lexLe as bs) from rfl, if_neg (by omega), if_neg (by omega)] at h1
        rw [show lexLe (a :: bs) (a :: as)
              = (if a.toNat < a.toNat then true
                 else if a.toNat < a.toNat then false
                 else lexLe bs as) from rfl, if_neg (by omega), if_neg (by omega)] at h2
        rw [lexLe_antisymm h1 h2]

theorem lexLe_trans : ∀ {as bs cs : List Char},
    lexLe as bs = true → lexLe bs cs = true → lexLe as cs = true
  | [], _, _, _, _ => rfl
  | _ :: _, [], _, h1, _ => by cases h1
  | _ :: _, _ :: _, [], _, h2 => by cases h2
  | a :: as, b :: bs, c :: cs, h1, h2 => by
    rw [show lexLe (a :: as) (b :: bs)
          = (if a.toNat < b.toNat then true
             else if b.toNat < a.toNat then false
             else lexLe as bs) from rfl] at h1
    rw [show lexLe (b :: bs) (c :: cs)
          = (if b.toNat < c.toNat then true
             else if c.toNat < b.toNat then false
             else lexLe bs cs) from rfl] at h2
    rw [show lexLe (a :: as) (c :: cs)
          = (if a.toNat < c.toNat then true
             else if c.toNat < a.toNat then false
             else lexLe as cs) from rfl]
    by_cases hab : a.toNat < b.toNat <;> by_cases hbc : b.toNat < c.toNat
    · rw [if_pos (by omega)]
    · rw [if_neg hbc] at h2
      by_cases hcb : c.toNat < b.toNat
      · rw [if_pos hcb] at h2
        cases h2
      · rw [if_pos (by omega)]
    · rw [if_neg hab] at h1
      by_cases hba : b.toNat < a.toNat
      · rw [if_pos hba] at h1
        cases h1
      · rw [if_pos (by omega)]
    · rw [if_neg hab] at h1
      rw [if_neg hbc] at h2
      by_cases hba : b.toNat < a.toNat
      · rw [if_pos hba] at h1
        cases h1
      · by_cases hcb : c.toNat < b.toNat
        · rw [if_pos hcb] at h2
          cases h2
        · rw [if_neg hba] at h1
          rw [if_neg hcb] at h2
          rw [if_neg (by omega), if_neg (by omega)]
          exact lexLe_trans h1 h2

theorem strLe_total (a b : String) : strLe a b = true ∨ strLe b a = true :=
  lexLe_total a.toList b.toList

theorem strLe_antisymm {a b : String} (h1 : strLe a b = true)
    (h2 : strLe b a = true) : a = b := by
  have := lexLe_antisymm h1 h2
  cases a
  cases b
  exact congrArg String.mk this

theorem strLe_trans {a b c : String} (h1 : strLe a b = true)
    (h2 : strLe b c = true) : strLe a c = true :=
  lexLe_trans h1 h2

theorem perm_orderedInsertStr (x : String) :
    ∀ l : List String, (orderedInsertStr x l).Perm (x :: l)
  | [] => List.Perm.refl _
  | y :: ys => by
    unfold orderedInsertStr
    split
    · exact List.Perm.refl _
    · exact ((perm_orderedInsertStr x ys).cons y).trans (List.Perm.swap x y ys)

theorem perm_sortStrings : ∀ l : List String, (sortStrings l).Perm l
  | [] => List.Perm.refl _
  | x :: xs =>
    (perm_orderedInsertStr x (sortStrings xs)).trans ((perm_sortStrings xs).cons x)

theorem sorted_orderedInsertStr (x : String) :
    ∀ {l : List String}, l.Sorted (fun a b => strLe a b = true) →
      (orderedInsertStr x l).Sorted (fun a b => strLe a b = true)
  | [], _ => List.sorted_singleton x
  | y :: ys, h => by
    unfold orderedInsertStr
    rw [List.sorted_cons] at h
    split
    · rename_i hxy
      rw [List.sorted_cons]
      refine ⟨?_, List.sorted_cons.mpr h⟩
      intro b hb
      rcases List.mem_cons.mp hb with hb | hb
      · exact hb ▸ hxy
      · exact strLe_trans hxy (h.1 b hb)
    · rename_i hxy
      have hyx : strLe y x = true := by
        rcases strLe_total x y with h' | h'
        · exact absurd h' hxy
        · exact h'
      rw [List.sorted_cons]
      refine ⟨?_, sorted_orderedInsertStr x h.2⟩
      intro b hb
      rcases List.mem_cons.mp ((perm_orderedInsertStr x ys).mem_iff.mp hb) with hb | hb
      · rw [hb]
        exact hyx
      · exact h.1 b hb

theorem sorted_sortStrings :
    ∀ l : List String, (sortStrings l).Sorted (fun a b => strLe a b = true)
  | [] => List.sorted_nil
  | x :: xs => sorted_orderedInsertStr x (sorted_sortStrings xs)

theorem sortStrings_eq_of_perm {l l' : List String} (h : l.Perm l') :
    sortStrings l = sortStrings l' :=
  @List.eq_of_perm_of_sorted String (fun a b => strLe a b = true)
    ⟨fun _ _ h1 h2 => strLe_antisymm h1 h2⟩ _ _
    ((perm_sortStrings l).trans (h.trans (perm_sortStrings l').symm))
    (sorted_sortStrings l) (sorted_sortStrings l')

/-- Claim C3, counterexample — both halves of "URLs differing in path or in
parameter names fingerprint differently" fail:
* the fingerprint keeps only the path's *depth* and *last segment*, not the
  whole path, so `http://h/a/x` and `http://h/b/x` have different paths but
  identical fingerprints;
* the kept parameter names are comma-joined, which is not injective, so
  `http://h/p?a,b=1` (one parameter named `a,b`) and `http://h/p?a=1&b=1`
  (parameters `a` and `b`) have different name lists but identical
  fingerprints. -/
theorem c3_counterexample :
    ((urlparse "http://h/a/x").path ≠ (urlparse "http://h/b/x").path
      ∧ generate_fingerprint "http://h/a/x" = generate_fingerprint "http://h/b/x")
    ∧ (fpParams (urlparse "http://h/p?a,b=1").query
          ≠ fpParams (urlparse "http://h/p?a=1&b=1").query
      ∧ generate_fingerprint "http://h/p?a,b=1"
          = generate_fingerprint "http://h/p?a=1&b=1") := by
  exact ⟨⟨by decide, by decide⟩, ⟨by decide, by decide⟩⟩

/-- Claim C3 as amended: `fingerprint(url)` is a total deterministic function
of exactly (netloc, number of `/` in the path, last path segment, sorted
names of the non-empty-valued query parameters) joined with `|` and hashed;
any two URLs agreeing on those four components — in particular differing only
in query-parameter values or order, or by parameters with empty values —
fingerprint identically.  Distinctness is *not* guaranteed: URLs differing
elsewhere in the path (same depth and last segment) fingerprint identically,
and so do URLs with different parameter names whose comma-joined sorted name
strings coincide (`?a,b=1` vs `?a=1&b=1`, see the counterexample); differing
names change the fingerprint only when the joined canonical strings differ,
as for `?x=1` vs `?z=1`. -/
theorem c3_amended :
    (∀ u v : String,
      (urlparse u).netloc = (urlparse v).netloc →
      pathDepth u = pathDepth v →
      lastSegment u = lastSegment v →
      (fpParams (urlparse u).query).Perm (fpParams (urlparse v).query) →
      generate_fingerprint u = generate_fingerprint v)
    ∧ fingerprintPre "http://h/p?x=1" ≠ fingerprintPre "http://h/p?z=1"
    ∧ generate_fingerprint "http://h/p?x=&y=1" = generate_fingerprint "http://h/p?y=1"
    ∧ generate_fingerprint "http://h/p?a,b=1" = generate_fingerprint "http://h/p?a=1&b=1" := by
  refine ⟨?_, by decide, by decide, by decide⟩
  intro u v hnet hdepth hlast hperm
  unfold generate_fingerprint generate_hash fingerprintPre
  rw [hnet, hdepth, hlast, sortStrings_eq_of_perm hperm]

/-- Claim C3 witness: the amended invariance applied to the spec's example
pair — reordered query parameters with different values. -/
theorem c3_amended_witness :
    generate_fingerprint "http://h/p?x=1&y=2" = generate_fingerprint "http://h/p?y=2&x=1" :=
  c3_amended.1 "http://h/p?x=1&y=2" "http://h/p?y=2&x=1"
    (by decide) (by decide) (by decide) (by decide)

/-! ## Claim C10: `get_urls` with the bare `--source` flag -/

theorem renderRowsWithSource_ok :
    ∀ {rows : List Row}, (∀ r ∈ rows, r.source ≠ none) →
      renderRowsWithSource rows
        = .ok (rows.map fun r => r.url ++ " | " ++ r.source.getD "")
  | [], _ => rfl
  | r :: rs, h => by
    match hs : r.source with
    | some sv =>
      unfold renderRowsWithSource
      rw [hs, renderRowsWithSource_ok fun r' hr' => h r' (List.mem_cons_of_mem r hr')]
      simp [Except.map, hs]
    | none => exact absurd hs (h r (List.mem_cons_self r rs))

theorem renderRowsWithSource_err :
    ∀ {rows : List Row}, (∃ r ∈ rows, r.source = none) →
      renderRowsWithSource rows = .error .typeError
  | [], h => by simp at h
  | r :: rs, h => by
    match hs : r.source with
    | none =>
      unfold renderRowsWithSource
      rw [hs]
    | some sv =>
      have h' : ∃ r' ∈ rs, r'.source = none := by
        rcases h with ⟨r', hr', hnone⟩
        rcases List.mem_cons.mp hr' with rfl | hr'
        · rw [hs] at hnone
          cases hnone
        · exact ⟨r', hr', hnone⟩
      unfold renderRowsWithSource
      rw [hs, renderRowsWithSource_err h']
      rfl

/-- Claim C10: when `get_urls` is called with `source=True` (the bare
`--source` flag) every returned element is `url + " | " + source`, and if any
selected row has a NULL source the string join raises `TypeError` instead of
returning the list; with `source=False` or a non-empty filter string the
result is the plain url list. -/
theorem c10_get_urls :
    (∀ (s : Store) (uo : Bool),
      (∀ r ∈ selectRows s uo .trueArg, r.source ≠ none) →
      get_urls s uo .trueArg
        = .ok ((selectRows s uo .trueArg).map fun r => r.url ++ " | " ++ r.source.getD ""))
    ∧ (∀ (s : Store) (uo : Bool),
      (∃ r ∈ selectRows s uo .trueArg, r.source = none) →
      get_urls s uo .trueArg = .error .typeError)
    ∧ (∀ (s : Store) (uo : Bool),
      get_urls s uo .falseArg = .ok ((selectRows s uo .falseArg).map (·.url)))
    ∧ (∀ (s : Store) (uo : Bool) (q : String), q ≠ "" →
      get_urls s uo (.strArg q) = .ok ((selectRows s uo (.strArg q)).map (·.url))) := by
  refine ⟨?_, ?_, ?_, ?_⟩
  · intro s uo h
    exact renderRowsWithSource_ok h
  · intro s uo h
    exact renderRowsWithSource_err h
  · intro s uo
    rfl
  · intro s uo q _
    rfl

/-- Claim C10 witness: a store whose single row has a NULL source makes the
flag variant raise, while the plain variant still returns the url. -/
theorem c10_get_urls_witness :
    get_urls ⟨[⟨"http://h/p", none, false⟩], []⟩ false .trueArg = .error .typeError
    ∧ get_urls ⟨[⟨"http://h/p", none, false⟩], []⟩ false .falseArg = .ok ["http://h/p"] :=
  ⟨c10_get_urls.2.1 ⟨[⟨"http://h/p", none, false⟩], []⟩ false
      ⟨⟨"http://h/p", none, false⟩, by decide, rfl⟩,
    c10_get_urls.2.2.1 ⟨[⟨"http://h/p", none, false⟩], []⟩ false⟩

/-! ## Claim C1: `add_target` upsert semantics -/

theorem mem_filter_ne {X : List Row} {url : String} {r : Row}
    (h : r ∈ X.filter fun r => r.url != url) : r.url ≠ url := by
  have := (List.mem_filter.mp h).2
  simpa using this

theorem filterRow_eq_nil {X : List Row} {url : String}
    (h : ∀ r ∈ X, r.url ≠ url) : X.filter (fun r => r.url == url) = [] := by
  induction X with
  | nil => rfl
  | cons r rs ih =>
    rw [List.filter_cons]
    have : (r.url == url) = false := by
      simpa using h r (List.mem_cons_self r rs)
    rw [this]
    simp only [Bool.false_eq_true, if_false]
    exact ih fun r' hr' => h r' (List.mem_cons_of_mem r hr')

theorem filterStr_eq_nil {us : List String} {url : String}
    (h : ∀ u ∈ us, u ≠ url) : us.filter (fun u => u == url) = [] := by
  induction us with
  | nil => rfl
  | cons u rest ih =>
    rw [List.filter_cons]
    have : (u == url) = false := by
      simpa using h u (List.mem_cons_self u rest)
    rw [this]
    simp only [Bool.false_eq_true, if_false]
    exact ih fun u' hu' => h u' (List.mem_cons_of_mem u hu')

theorem length_filter_eq_urls (X : List Row) (url : String) :
    (X.filter fun r => r.url == url).length
      = ((X.map (·.url)).filter fun u => u == url).length := by
  induction X with
  | nil => rfl
  | cons r rs ih =>
    rw [List.map_cons, List.filter_cons, List.filter_cons]
    cases h : r.url == url <;> simp [h, ih]

theorem countStr_nodup_one {us : List String} {url : String}
    (hnd : us.Nodup) (hmem : url ∈ us) :
    (us.filter fun u => u == url).length = 1 := by
  induction us with
  | nil => cases hmem
  | cons u rest ih =>
    rw [List.filter_cons]
    by_cases heq : u = url
    · subst heq
      simp only [beq_self_eq_true, if_true]
      have hrest : ∀ v ∈ rest, v ≠ u := by
        intro v hv he
        rw [he] at hv
        exact (List.nodup_cons.mp hnd).1 hv
      rw [filterStr_eq_nil hrest]
      rfl
    · have hb : (u == url) = false := by simpa using heq
      rw [hb]
      simp only [Bool.false_eq_true, if_false]
      apply ih (List.nodup_cons.mp hnd).2
      rcases List.mem_cons.mp hmem with h' | h'
      · exact absurd h'.symm heq
      · exact h'

theorem find?_append_new {X : List Row} {url : String} (src : Option String)
    (sc : Bool) (h : ∀ r ∈ X, r.url ≠ url) :
    (X ++ [(⟨url, src, sc⟩ : Row)]).find? (fun r => r.url == url)
      = some ⟨url, src, sc⟩ := by
  induction X with
  | nil => simp [List.find?]
  | cons r rs ih =>
    rw [List.cons_append, List.find?_cons]
    have hne : (r.url == url) = false := by
      simpa using h r (List.mem_cons_self r rs)
    rw [hne]
    exact ih fun r' hr' => h r' (List.mem_cons_of_mem r hr')

theorem upsert_find? (X : List Row) (url : String) (src : Option String) :
    (X.map fun r => if r.url == url then (⟨url, src, r.scanned⟩ : Row) else r).find?
        (fun r => r.url == url)
      = (X.find? fun r => r.url == url).map fun r => (⟨url, src, r.scanned⟩ : Row) := by
  induction X with
  | nil => rfl
  | cons r rs ih =>
    rw [List.map_cons, List.find?_cons, List.find?_cons]
    cases h : r.url == url
    · rw [if_neg (by simp [h]), h]
      exact ih
    · rw [if_pos (by simp [h])]
      have : ((⟨url, src, r.scanned⟩ : Row).url == url) = true := by simp
      rw [this]
      rfl

theorem upsert_map_url (X : List Row) (url : String) (src : Option String) :
    (X.map fun r => if r.url == url then (⟨url, src, r.scanned⟩ : Row) else r).map (·.url)
      = X.map (·.url) := by
  induction X with
  | nil => rfl
  | cons r rs ih =>
    rw [List.map_cons, List.map_cons, List.map_cons]
    cases h : r.url == url
    · rw [if_neg (by simp [h]), ih]
    · rw [if_pos (by simp [h]), ih]
      have : url = r.url := (beq_iff_eq.mp h).symm
      rw [show ((⟨url, src, r.scanned⟩ : Row).url) = url from rfl, this]

theorem add_target_postgresql_pos {s : Store} {url : String} {source : Option String}
    (h : s.targets.any (fun r => r.url == url) = true) :
    add_target .postgresql s url source = s := by
  show (if s.targets.any (fun r => r.url == url) then s
    else { s with targets := s.targets ++ [⟨url, source, false⟩] }) = s
  rw [h]
  simp

theorem add_target_postgresql_neg {s : Store} {url : String} {source : Option String}
    (h : s.targets.any (fun r => r.url == url) = false) :
    add_target .postgresql s url source
      = { s with targets := s.targets ++ [⟨url, source, false⟩] } := by
  show (if s.targets.any (fun r => r.url == url) then s
    else { s with targets := s.targets ++ [⟨url, source, false⟩] }) = _
  rw [h]
  simp

theorem add_target_phoenixdb_pos {s : Store} {url : String} {source : Option String}
    (h : s.targets.any (fun r => r.url == url) = true) :
    add_target .phoenixdb s url source
      = { s with targets := s.targets.map fun r =>
          if r.url == url then ⟨url, source, r.scanned⟩ else r } := by
  have e : add_target .phoenixdb s url source
      = (if s.targets.any (fun r => r.url == url)
         then ({ s with targets := s.targets.map fun r : Row =>
             if r.url == url then (⟨url, source, r.scanned⟩ : Row) else r } : Store)
         else ({ s with targets := s.targets ++ [⟨url, source, false⟩] } : Store)) := rfl
  rw [e, h]
  simp

theorem add_target_phoenixdb_neg {s : Store} {url : String} {source : Option String}
    (h : s.targets.any (fun r => r.url == url) = false) :
    add_target .phoenixdb s url source
      = { s with targets := s.targets ++ [⟨url, source, false⟩] } := by
  have e : add_target .phoenixdb s url source
      = (if s.targets.any (fun r => r.url == url)
         then ({ s with targets := s.targets.map fun r : Row =>
             if r.url == url then (⟨url, source, r.scanned⟩ : Row) else r } : Store)
         else ({ s with targets := s.targets ++ [⟨url, source, false⟩] } : Store)) := rfl
  rw [e, h]
  simp

/-- Claim C1, counterexample: re-adding an existing URL does not behave as
claimed on every backend.  Under the default `sqlite3` driver
(`INSERT OR REPLACE`) re-adding a scanned target *resets* `scanned` to the
column default 0: before the second `add_target` the row's scanned flag is
true, after it the flag is false.  Under `postgresql`
(`ON CONFLICT DO NOTHING`) the second add leaves `source` at its old value
instead of the latest. -/
theorem c1_counterexample :
    (lookupRow (markScannedStore
        (add_target .sqlite3 ⟨[], []⟩ "http://h/p" (some "s1")) "http://h/p")
        "http://h/p").map (·.scanned) = some true
    ∧ (lookupRow (add_target .sqlite3
        (markScannedStore
          (add_target .sqlite3 ⟨[], []⟩ "http://h/p" (some "s1")) "http://h/p")
        "http://h/p" (some "s2")) "http://h/p").map (·.scanned) = some false
    ∧ (lookupRow (add_target .postgresql
        (add_target .postgresql ⟨[], []⟩ "http://h/p" (some "s1"))
        "http://h/p" (some "s2")) "http://h/p").map (·.source)
      = some (some "s1") := by
  exact ⟨by decide, by decide, by decide⟩

/-- Claim C1 as amended: two successive `add_target` calls for the same url
leave exactly one row for that url under every driver, but the row's content
is driver-dependent: `phoenixdb` (`UPSERT`) matches the claim — the latest
`source` wins and `scanned` is preserved; `postgresql`
(`ON CONFLICT DO NOTHING`) keeps a pre-existing row wholesale, so the
*first* add's source wins for a new url and an existing row keeps its old
source; `sqlite3` (`INSERT OR REPLACE`) takes the latest source but resets
`scanned` to the default 0. -/
theorem c1_amended (b : Backend) (s : Store) (url : String) (s1 s2 : Option String)
    (hnd : (s.targets.map (·.url)).Nodup) :
    ((add_target b (add_target b s url s1) url s2).targets.filter
        (fun r => r.url == url)).length = 1
    ∧ (match b with
       | .sqlite3 =>
         lookupRow (add_target b (add_target b s url s1) url s2) url
           = some ⟨url, s2, false⟩
       | .postgresql =>
         lookupRow (add_target b (add_target b s url s1) url s2) url
           = some ((lookupRow s url).getD ⟨url, s1, false⟩)
       | .phoenixdb =>
         lookupRow (add_target b (add_target b s url s1) url s2) url
           = some ⟨url, s2, ((lookupRow s url).map (·.scanned)).getD false⟩) := by
  cases b with
  | sqlite3 =>
    constructor
    · show ((((add_target .sqlite3 s url s1).targets.filter
          fun r => r.url != url) ++ [(⟨url, s2, false⟩ : Row)]).filter
            (fun r => r.url == url)).length = 1
      rw [List.filter_append,
        filterRow_eq_nil (fun r hr => mem_filter_ne hr)]
      simp
    · show ((((add_target .sqlite3 s url s1).targets.filter
          fun r => r.url != url) ++ [(⟨url, s2, false⟩ : Row)]).find?
            (fun r => r.url == url)) = some (⟨url, s2, false⟩ : Row)
      exact find?_append_new s2 false fun r hr => mem_filter_ne hr
  | postgresql =>
    cases h1 : s.targets.any fun r => r.url == url
    · have hall : ∀ r ∈ s.targets, r.url ≠ url := by
        intro r hr
        have := List.any_eq_false.mp h1 r hr
        simpa using this
      have hadd1 : add_target .postgresql s url s1
          = { s with targets := s.targets ++ [⟨url, s1, false⟩] } :=
        add_target_postgresql_neg h1
      have hany2 : (s.targets ++ [(⟨url, s1, false⟩ : Row)]).any
          (fun r => r.url == url) = true := by
        rw [List.any_append]
        simp [List.any]
      have hadd2 : add_target .postgresql (add_target .postgresql s url s1) url s2
          = { s with targets := s.targets ++ [⟨url, s1, false⟩] } := by
        rw [hadd1]
        exact add_target_postgresql_pos hany2
      constructor
      · rw [hadd2]
        show ((s.targets ++ [(⟨url, s1, false⟩ : Row)]).filter
          (fun r => r.url == url)).length = 1
        rw [List.filter_append, filterRow_eq_nil hall]
        simp
      · show lookupRow (add_target .postgresql (add_target .postgresql s url s1) url s2) url
          = some ((lookupRow s url).getD ⟨url, s1, false⟩)
        rw [hadd2]
        have hnone : lookupRow s url = none := by
          unfold lookupRow
          rw [List.find?_eq_none]
          intro r hr
          simpa using hall r hr
        rw [hnone]
        show ((s.targets ++ [(⟨url, s1, false⟩ : Row)]).find?
          (fun r => r.url == url)) = some ⟨url, s1, false⟩
        exact find?_append_new s1 false hall
    · have hadd1 : add_target .postgresql s url s1 = s :=
        add_target_postgresql_pos h1
      have hadd2 : add_target .postgresql (add_target .postgresql s url s1) url s2 = s := by
        rw [hadd1]
        exact add_target_postgresql_pos h1
      have hmem : url ∈ s.targets.map (·.url) := by
        rcases List.any_eq_true.mp h1 with ⟨r, hr, hbeq⟩
        exact List.mem_map.mpr ⟨r, hr, beq_iff_eq.mp hbeq⟩
      constructor
      · rw [hadd2, length_filter_eq_urls]
        exact countStr_nodup_one hnd hmem
      · show lookupRow (add_target .postgresql (add_target .postgresql s url s1) url s2) url
          = some ((lookupRow s url).getD ⟨url, s1, false⟩)
        rw [hadd2]
        have hsome : (lookupRow s url).isSome := by
          unfold lookupRow
          rw [List.find?_isSome]
          rcases List.any_eq_true.mp h1 with ⟨r, hr, hbeq⟩
          exact ⟨r, hr, hbeq⟩
        cases hfind : lookupRow s url with
        | none => rw [hfind] at hsome; cases hsome
        | some r0 => rfl
  | phoenixdb =>
    cases h1 : s.targets.any fun r => r.url == url
    · have hall : ∀ r ∈ s.targets, r.url ≠ url := by
        intro r hr
        have := List.any_eq_false.mp h1 r hr
        simpa using this
      have hadd1 : add_target .phoenixdb s url s1
          = { s with targets := s.targets ++ [⟨url, s1, false⟩] } :=
        add_target_phoenixdb_neg h1
      have hany2 : (s.targets ++ [(⟨url, s1, false⟩ : Row)]).any
          (fun r => r.url == url) = true := by
        rw [List.any_append]
        simp [List.any]
      have hadd2 : add_target .phoenixdb (add_target .phoenixdb s url s1) url s2
          = { s with targets := (s.targets ++ [(⟨url, s1, false⟩ : Row)]).map fun r : Row =>
              if r.url == url then (⟨url, s2, r.scanned⟩ : Row) else r } := by
        rw [hadd1]
        apply add_target_phoenixdb_pos
        exact hany2
      have hnone : lookupRow s url = none := by
        unfold lookupRow
        rw [List.find?_eq_none]
        intro r hr
        simpa using hall r hr
      constructor
      · rw [hadd2]
        show (((s.targets ++ [(⟨url, s1, false⟩ : Row)]).map fun r =>
            if r.url == url then (⟨url, s2, r.scanned⟩ : Row) else r).filter
              (fun r => r.url == url)).length = 1
        rw [length_filter_eq_urls, upsert_map_url, List.map_append,
          List.filter_append, filterStr_eq_nil (fun u hu => by
            rcases List.mem_map.mp hu with ⟨r, hr, rfl⟩
            exact hall r hr)]
        simp
      · rw [hadd2, hnone]
        show (((s.targets ++ [(⟨url, s1, false⟩ : Row)]).map fun r =>
            if r.url == url then (⟨url, s2, r.scanned⟩ : Row) else r).find?
              (fun r => r.url == url)) = some ⟨url, s2, false⟩
        rw [upsert_find?, find?_append_new s1 false hall]
        rfl
    · have hadd1 : add_target .phoenixdb s url s1
          = { s with targets := s.targets.map fun r =>
              if r.url == url then ⟨url, s1, r.scanned⟩ else r } :=
        add_target_phoenixdb_pos h1
      have hany1 : (s.targets.map fun r =>
          if r.url == url then (⟨url, s1, r.scanned⟩ : Row) else r).any
            (fun r => r.url == url) = true := by
        rcases List.any_eq_true.mp h1 with ⟨r, hr, hbeq⟩
        apply List.any_eq_true.mpr
        exact ⟨(fun r => if r.url == url then (⟨url, s1, r.scanned⟩ : Row) else r) r,
          List.mem_map_of_mem _ hr, by simp [hbeq]⟩
      have hadd2 : add_target .phoenixdb (add_target .phoenixdb s url s1) url s2
          = { s with targets := (s.targets.map fun r : Row =>
              if r.url == url then (⟨url, s1, r.scanned⟩ : Row) else r).map fun r : Row =>
                if r.url == url then (⟨url, s2, r.scanned⟩ : Row) else r } := by
        rw [hadd1]
        apply add_target_phoenixdb_pos
        exact hany1
      have hmem : url ∈ s.targets.map (·.url) := by
        rcases List.any_eq_true.mp h1 with ⟨r, hr, hbeq⟩
        exact List.mem_map.mpr ⟨r, hr, beq_iff_eq.mp hbeq⟩
      have hsome : (lookupRow s url).isSome := by
        unfold lookupRow
        rw [List.find?_isSome]
        rcases List.any_eq_true.mp h1 with ⟨r, hr, hbeq⟩
        exact ⟨r, hr, hbeq⟩
      constructor
      · rw [hadd2, length_filter_eq_urls, upsert_map_url, upsert_map_url]
        exact countStr_nodup_one hnd hmem
      · rw [hadd2]
        cases hfind : lookupRow s url with
        | none => rw [hfind] at hsome; cases hsome
        | some r0 =>
          show ((s.targets.map fun r =>
              if r.url == url then (⟨url, s1, r.scanned⟩ : Row) else r).map fun r =>
                if r.url == url then (⟨url, s2, r.scanned⟩ : Row) else r).find?
                  (fun r => r.url == url) = some ⟨url, s2, r0.scanned⟩
          rw [upsert_find?, upsert_find?]
          unfold lookupRow at hfind
          rw [hfind]
          rfl

/-- Claim C1 witness: the amended per-backend characterization applied to the
default `sqlite3` driver on a one-row store whose target is already
scanned. -/
theorem c1_amended_witness :
    ((add_target .sqlite3 (add_target .sqlite3 ⟨[⟨"u", some "s0", true⟩], []⟩ "u" (some "a"))
        "u" (some "b")).targets.filter (fun r => r.url == "u")).length = 1
    ∧ lookupRow (add_target .sqlite3
        (add_target .sqlite3 ⟨[⟨"u", some "s0", true⟩], []⟩ "u" (some "a"))
        "u" (some "b")) "u" = some ⟨"u", some "b", false⟩ := by
  have h := c1_amended .sqlite3 ⟨[⟨"u", some "s0", true⟩], []⟩ "u" (some "a") (some "b")
    (by decide)
  exact ⟨h.1, h.2⟩

/-! ## Claim C9: fingerprints are only removed by `flush_fingerprints` -/

theorem add_target_fingerprints (b : Backend) (s : Store) (url : String)
    (source : Option String) :
    (add_target b s url source).fingerprints = s.fingerprints := by
  cases b with
  | sqlite3 => rfl
  | postgresql =>
    cases h : s.targets.any fun r => r.url == url
    · rw [add_target_postgresql_neg h]
    · rw [add_target_postgresql_pos h]
  | phoenixdb =>
    cases h : s.targets.any fun r => r.url == url
    · rw [add_target_phoenixdb_neg h]
    · rw [add_target_phoenixdb_pos h]

theorem add_targets_fingerprints (b : Backend) (source : Option String) :
    ∀ (urls : List String) (s : Store),
      (add_targets b s urls source).fingerprints = s.fingerprints
  | [], _ => rfl
  | u :: rest, s => by
    show (add_targets b (add_target b s u source) rest source).fingerprints = _
    rw [add_targets_fingerprints b source rest (add_target b s u source),
      add_target_fingerprints]

theorem gntLoop_fingerprints_mono (fp : String) :
    ∀ (fuel : Nat) (s : Store) (c : Cursor),
      fp ∈ s.fingerprints → fp ∈ (gntLoop s c fuel).1.fingerprints
  | 0, _, _, h => h
  | fuel + 1, s, c, h => by
    cases hp : c.pending with
    | nil =>
      simp only [gntLoop, fetchone, hp, List.head?_nil]
      exact h
    | cons row rest =>
      simp only [gntLoop, fetchone, hp, List.head?_cons]
      split
      · exact gntLoop_fingerprints_mono fp fuel _ _ h
      · exact insertFingerprint_mem_mono h

theorem pruneLoop_fingerprints (bl : String → Bool) :
    ∀ (L pass : List String) (s : Store),
      (pruneLoop bl pass s L).fingerprints = s.fingerprints
  | [], _, _ => rfl
  | u :: rest, pass, s => by
    simp only [pruneLoop]
    split
    · rw [pruneLoop_fingerprints bl rest pass (markScannedStore s u)]
      rfl
    · split
      · rw [pruneLoop_fingerprints bl rest pass (delete_target s u)]
        rfl
      · exact pruneLoop_fingerprints bl rest _ s

/-- Claim C9: along any sequence of the store operations `add_target`,
`add_targets`, `delete_target`, `get_next_target`, `mark_scanned`, `prune`
and `flush_targets`, a fingerprint once present in the fingerprints table
stays present — only `flush_fingerprints` (not in the alphabet) removes
fingerprints. -/
theorem c9_fingerprint_persistence (ops : List Op) (s : Store) (fp : String)
    (h : fp ∈ s.fingerprints) : fp ∈ (applyOps s ops).fingerprints := by
  induction ops generalizing s with
  | nil => exact h
  | cons op rest ih =>
    show fp ∈ (applyOps (applyOp s op) rest).fingerprints
    apply ih
    cases op with
    | addT b url source =>
      show fp ∈ (add_target b s url source).fingerprints
      rw [add_target_fingerprints]
      exact h
    | addTs b urls source =>
      show fp ∈ (add_targets b s urls source).fingerprints
      rw [add_targets_fingerprints]
      exact h
    | delT url => exact h
    | next =>
      show fp ∈ (gntLoop s ⟨(unscannedUrls s).map fun u => [u]⟩
        (((unscannedUrls s).map fun u => [u]).length + 2)).1.fingerprints
      exact gntLoop_fingerprints_mono fp _ _ _ h
    | mark url => exact h
    | pruneOp bl =>
      show fp ∈ (pruneLoop bl [] s (get_urls_plain s)).fingerprints
      rw [pruneLoop_fingerprints]
      exact h
    | flushT => exact h

/-- Claim C9 witness: the persistence theorem applied to a concrete operation
sequence exercising every operation of the alphabet. -/
theorem c9_fingerprint_persistence_witness :
    "f0" ∈ (applyOps ⟨[⟨"http://a/p?x=1", none, false⟩], ["f0"]⟩
      [.addT .sqlite3 "http://x/" (some "s"), .next, .pruneOp (fun _ => false),
        .mark "http://x/", .delT "http://x/", .flushT,
        .addTs .postgresql ["u1", "u2"] none]).fingerprints :=
  c9_fingerprint_persistence
    [.addT .sqlite3 "http://x/" (some "s"), .next, .pruneOp (fun _ => false),
      .mark "http://x/", .delT "http://x/", .flushT,
      .addTs .postgresql ["u1", "u2"] none]
    ⟨[⟨"http://a/p?x=1", none, false⟩], ["f0"]⟩ "f0" (by decide)

/-! ## Claim C8: idempotence of `prune`

Branch-step lemmas for `pruneLoop`/`pruneActs`, the factorization of one
prune pass into a pure action list, and the two-pass simulation argument. -/

theorem pruneLoop_mark {bl : String → Bool} {pass : List String} {s : Store}
    {u : String} {rest : List String}
    (hc : (pass.contains (generate_fingerprint u)
      || s.fingerprints.contains (generate_fingerprint u)) = true) :
    pruneLoop bl pass s (u :: rest) = pruneLoop bl pass (markScannedStore s u) rest := by
  have e : pruneLoop bl pass s (u :: rest)
      = (if pass.contains (generate_fingerprint u)
            || s.fingerprints.contains (generate_fingerprint u) then
          pruneLoop bl pass (markScannedStore s u) rest
        else if bl u then pruneLoop bl pass (delete_target s u) rest
        else pruneLoop bl (generate_fingerprint u :: pass) s rest) := rfl
  rw [e, hc]
  simp

theorem pruneLoop_del {bl : String → Bool} {pass : List String} {s : Store}
    {u : String} {rest : List String}
    (hc : (pass.contains (generate_fingerprint u)
      || s.fingerprints.contains (generate_fingerprint u)) = false)
    (hb : bl u = true) :
    pruneLoop bl pass s (u :: rest) = pruneLoop bl pass (delete_target s u) rest := by
  have e : pruneLoop bl pass s (u :: rest)
      = (if pass.contains (generate_fingerprint u)
            || s.fingerprints.contains (generate_fingerprint u) then
          pruneLoop bl pass (markScannedStore s u) rest
        else if bl u then pruneLoop bl pass (delete_target s u) rest
        else pruneLoop bl (generate_fingerprint u :: pass) s rest) := rfl
  rw [e, hc, hb]
  simp

theorem pruneLoop_rec {bl : String → Bool} {pass : List String} {s : Store}
    {u : String} {rest : List String}
    (hc : (pass.contains (generate_fingerprint u)
      || s.fingerprints.contains (generate_fingerprint u)) = false)
    (hb : bl u = false) :
    pruneLoop bl pass s (u :: rest)
      = pruneLoop bl (generate_fingerprint u :: pass) s rest := by
  have e : pruneLoop bl pass s (u :: rest)
      = (if pass.contains (generate_fingerprint u)
            || s.fingerprints.contains (generate_fingerprint u) then
          pruneLoop bl pass (markScannedStore s u) rest
        else if bl u then pruneLoop bl pass (delete_target s u) rest
        else pruneLoop bl (generate_fingerprint u :: pass) s rest) := rfl
  rw [e, hc, hb]
  simp

theorem pruneActs_mark {F : List String} {bl : String → Bool}
    {pass : List String} {u : String} {rest : List String}
    (hc : (pass.contains (generate_fingerprint u)
      || F.contains (generate_fingerprint u)) = true) :
    pruneActs F bl pass (u :: rest) = .mark u :: pruneActs F bl pass rest := by
  have e : pruneActs F bl pass (u :: rest)
      = (if pass.contains (generate_fingerprint u)
            || F.contains (generate_fingerprint u) then
          PruneAct.mark u :: pruneActs F bl pass rest
        else if bl u then PruneAct.del u :: pruneActs F bl pass rest
        else pruneActs F bl (generate_fingerprint u :: pass) rest) := rfl
  rw [e, hc]
  simp

theorem pruneActs_del {F : List String} {bl : String → Bool}
    {pass : List String} {u : String} {rest : List String}
    (hc : (pass.contains (generate_fingerprint u)
      || F.contains (generate_fingerprint u)) = false)
    (hb : bl u = true) :
    pruneActs F bl pass (u :: rest) = .del u :: pruneActs F bl pass rest := by
  have e : pruneActs F bl pass (u :: rest)
      = (if pass.contains (generate_fingerprint u)
            || F.contains (generate_fingerprint u) then
          PruneAct.mark u :: pruneActs F bl pass rest
        else if bl u then PruneAct.del u :: pruneActs F bl pass rest
        else pruneActs F bl (generate_fingerprint u :: pass) rest) := rfl
  rw [e, hc, hb]
  simp

theorem pruneActs_rec {F : List String} {bl : String → Bool}
    {pass : List String} {u : String} {rest : List String}
    (hc : (pass.contains (generate_fingerprint u)
      || F.contains (generate_fingerprint u)) = false)
    (hb : bl u = false) :
    pruneActs F bl pass (u :: rest)
      = pruneActs F bl (generate_fingerprint u :: pass) rest := by
  have e : pruneActs F bl pass (u :: rest)
      = (if pass.contains (generate_fingerprint u)
            || F.contains (generate_fingerprint u) then
          PruneAct.mark u :: pruneActs F bl pass rest
        else if bl u then PruneAct.del u :: pruneActs F bl pass rest
        else pruneActs F bl (generate_fingerprint u :: pass) rest) := rfl
  rw [e, hc, hb]
  simp

theorem pruneActs_urls (F : List String) (bl : String → Bool) :
    ∀ (L P : List String) (a : PruneAct), a ∈ pruneActs F bl P L → a.actUrl ∈ L
  | [], P, a, h => by simp [pruneActs] at h
  | u :: rest, P, a, h => by
    by_cases hc : (P.contains (generate_fingerprint u)
        || F.contains (generate_fingerprint u)) = true
    · rw [pruneActs_mark hc] at h
      rcases List.mem_cons.mp h with rfl | h'
      · exact List.mem_cons_self _ _
      · exact List.mem_cons_of_mem _ (pruneActs_urls F bl rest P a h')
    · have hc' : (P.contains (generate_fingerprint u)
          || F.contains (generate_fingerprint u)) = false := by
        simpa using hc
      cases hb : bl u
      · rw [pruneActs_rec hc' hb] at h
        exact List.mem_cons_of_mem _ (pruneActs_urls F bl rest _ a h)
      · rw [pruneActs_del hc' hb] at h
        rcases List.mem_cons.mp h with rfl | h'
        · exact List.mem_cons_self _ _
        · exact List.mem_cons_of_mem _ (pruneActs_urls F bl rest P a h')

theorem markScannedRows_cons_hit {u : String} {r : Row} (T : List Row)
    (h : r.url = u) :
    markScannedRows u (r :: T) = { r with scanned := true } :: markScannedRows u T := by
  unfold markScannedRows
  rw [List.map_cons, if_pos (by simp [h])]

theorem markScannedRows_cons_miss {u : String} {r : Row} (T : List Row)
    (h : r.url ≠ u) :
    markScannedRows u (r :: T) = r :: markScannedRows u T := by
  unfold markScannedRows
  rw [List.map_cons, if_neg (by simp [h])]

theorem markScannedRows_absent {u : String} :
    ∀ {T : List Row}, (∀ r ∈ T, r.url ≠ u) → markScannedRows u T = T
  | [], _ => rfl
  | r :: T, h => by
    rw [markScannedRows_cons_miss T (h r (List.mem_cons_self r T)),
      markScannedRows_absent fun r' hr' => h r' (List.mem_cons_of_mem r hr')]

theorem markScannedRows_map_url (u : String) :
    ∀ (T : List Row), (markScannedRows u T).map (·.url) = T.map (·.url)
  | [] => rfl
  | r :: T => by
    by_cases h : r.url = u
    · rw [markScannedRows_cons_hit T h, List.map_cons, List.map_cons,
        markScannedRows_map_url u T]
    · rw [markScannedRows_cons_miss T h, List.map_cons, List.map_cons,
        markScannedRows_map_url u T]

theorem filter_ne_absent {u : String} :
    ∀ {T : List Row}, (∀ r ∈ T, r.url ≠ u) →
      T.filter (fun r => r.url != u) = T
  | [], _ => rfl
  | r :: T, h => by
    rw [List.filter_cons,
      if_pos (by simpa using h r (List.mem_cons_self r T)),
      filter_ne_absent fun r' hr' => h r' (List.mem_cons_of_mem r hr')]

theorem markScannedRows_noop {u : String} :
    ∀ {T : List Row}, (∀ r' ∈ T, r'.url = u → r'.scanned = true) →
      markScannedRows u T = T
  | [], _ => rfl
  | r :: T, h => by
    have htail : ∀ r' ∈ T, r'.url = u → r'.scanned = true :=
      fun r' hr' => h r' (List.mem_cons_of_mem r hr')
    by_cases hru : r.url = u
    · have hs : r.scanned = true := h r (List.mem_cons_self r T) hru
      rw [markScannedRows_cons_hit T hru, markScannedRows_noop htail]
      cases r
      simp only at hs
      rw [hs]
    · rw [markScannedRows_cons_miss T hru, markScannedRows_noop htail]

theorem applyActs_cons_skip :
    ∀ (A : List PruneAct) (r : Row) (X : List Row),
      (∀ a ∈ A, a.actUrl ≠ r.url) → applyActs A (r :: X) = r :: applyActs A X
  | [], _, _, _ => rfl
  | a :: A, r, X, h => by
    have hr : a.actUrl ≠ r.url := h a (List.mem_cons_self _ _)
    have e : applyAct (r :: X) a = r :: applyAct X a := by
      cases a with
      | mark u =>
        exact markScannedRows_cons_miss X fun he => hr he.symm
      | del u =>
        have hru : r.url ≠ u := fun he => hr he.symm
        show (r :: X).filter (fun r' => r'.url != u) = r :: X.filter (fun r' => r'.url != u)
        rw [List.filter_cons, if_pos (by simpa using hru)]
    show applyActs A (applyAct (r :: X) a) = r :: applyActs A (applyAct X a)
    rw [e]
    exact applyActs_cons_skip A r (applyAct X a)
      fun a' ha' => h a' (List.mem_cons_of_mem _ ha')

theorem applyActs_urls_subset :
    ∀ (A : List PruneAct) (X : List Row) (x : String),
      x ∈ (applyActs A X).map (·.url) → x ∈ X.map (·.url)
  | [], _, _, h => h
  | a :: A, X, x, h => by
    have h' : x ∈ (applyAct X a).map (·.url) :=
      applyActs_urls_subset A (applyAct X a) x h
    cases a with
    | mark u =>
      rw [show applyAct X (.mark u) = markScannedRows u X from rfl,
        markScannedRows_map_url] at h'
      exact h'
    | del u =>
      rcases List.mem_map.mp h' with ⟨r, hr, rfl⟩
      exact List.mem_map_of_mem _ (List.mem_of_mem_filter hr)

theorem pruneLoop_eq_applyActs (bl : String → Bool) :
    ∀ (L pass : List String) (s : Store),
      pruneLoop bl pass s L
        = ⟨applyActs (pruneActs s.fingerprints bl pass L) s.targets, s.fingerprints⟩
  | [], pass, s => rfl
  | u :: rest, pass, s => by
    by_cases hc : (pass.contains (generate_fingerprint u)
        || s.fingerprints.contains (generate_fingerprint u)) = true
    · rw [pruneLoop_mark hc, pruneActs_mark hc,
        pruneLoop_eq_applyActs bl rest pass (markScannedStore s u)]
      rfl
    · have hc' : (pass.contains (generate_fingerprint u)
          || s.fingerprints.contains (generate_fingerprint u)) = false := by
        simpa using hc
      cases hb : bl u
      · rw [pruneLoop_rec hc' hb, pruneActs_rec hc' hb,
          pruneLoop_eq_applyActs bl rest _ s]
      · rw [pruneLoop_del hc' hb, pruneActs_del hc' hb,
          pruneLoop_eq_applyActs bl rest pass (delete_target s u)]
        rfl

theorem applyActs_prune_idem (F : List String) (bl : String → Bool) :
    ∀ (L : List String) (pass : List String) (T : List Row),
      L.Nodup → T.map (·.url) = L →
      applyActs (pruneActs F bl pass ((applyActs (pruneActs F bl pass L) T).map (·.url)))
          (applyActs (pruneActs F bl pass L) T)
        = applyActs (pruneActs F bl pass L) T := by
  intro L
  induction L with
  | nil =>
    intro pass T _ hT
    rw [show pruneActs F bl pass [] = [] from rfl]
    rw [show applyActs [] T = T from rfl, hT]
    rfl
  | cons u rest ih =>
    intro pass T hnd hT
    cases T with
    | nil => cases hT
    | cons r T' =>
      rw [List.map_cons] at hT
      injection hT with hr hT'
      have hu_rest : u ∉ rest := (List.nodup_cons.mp hnd).1
      have hnd' : rest.Nodup := (List.nodup_cons.mp hnd).2
      have habsT' : ∀ r' ∈ T', r'.url ≠ u := by
        intro r' hr' he
        apply hu_rest
        have : r'.url ∈ T'.map (·.url) := List.mem_map_of_mem _ hr'
        rw [hT'] at this
        rw [he] at this
        exact this
      have hskip1 : ∀ (P : List String) (a : PruneAct),
          a ∈ pruneActs F bl P rest → a.actUrl ≠ r.url := by
        intro P a ha he
        apply hu_rest
        have hmem := pruneActs_urls F bl rest P a ha
        have he' : a.actUrl = u := by rw [he]; exact hr
        rw [he'] at hmem
        exact hmem
      have habsT1 : ∀ (P : List String) (r' : Row),
          r' ∈ applyActs (pruneActs F bl P rest) T' → r'.url ≠ u := by
        intro P r' hr' he
        apply hu_rest
        have h1 : r'.url ∈ (applyActs (pruneActs F bl P rest) T').map (·.url) :=
          List.mem_map_of_mem _ hr'
        have h2 := applyActs_urls_subset _ _ _ h1
        rw [hT'] at h2
        rw [he] at h2
        exact h2
      have hskip2 : ∀ (P P' : List String) (a : PruneAct),
          a ∈ pruneActs F bl P' ((applyActs (pruneActs F bl P rest) T').map (·.url)) →
            a.actUrl ≠ r.url := by
        intro P P' a ha he
        apply hu_rest
        have h1 := pruneActs_urls F bl
          ((applyActs (pruneActs F bl P rest) T').map (·.url)) P' a ha
        have he' : a.actUrl = u := by rw [he]; exact hr
        rw [he'] at h1
        have h2 := applyActs_urls_subset _ _ _ h1
        rw [hT'] at h2
        exact h2
      by_cases hc : (pass.contains (generate_fingerprint u)
          || F.contains (generate_fingerprint u)) = true
      · -- run 1 marks u; run 2 marks it again (a no-op on an already-marked row)
        rw [pruneActs_mark hc]
        have e1 : applyActs (.mark u :: pruneActs F bl pass rest) (r :: T')
            = { r with scanned := true } :: applyActs (pruneActs F bl pass rest) T' := by
          show applyActs (pruneActs F bl pass rest) (markScannedRows u (r :: T'))
            = { r with scanned := true } :: applyActs (pruneActs F bl pass rest) T'
          rw [markScannedRows_cons_hit T' hr, markScannedRows_absent habsT']
          exact applyActs_cons_skip _ _ _ (hskip1 pass)
        rw [e1]
        have hurl1 : ({ r with scanned := true } :: applyActs (pruneActs F bl pass rest) T').map (·.url)
            = u :: (applyActs (pruneActs F bl pass rest) T').map (·.url) := by
          rw [List.map_cons]
          show r.url :: _ = _
          rw [hr]
        rw [hurl1, pruneActs_mark hc]
        have e2 : applyActs
            (.mark u :: pruneActs F bl pass ((applyActs (pruneActs F bl pass rest) T').map (·.url)))
            ({ r with scanned := true } :: applyActs (pruneActs F bl pass rest) T')
            = { r with scanned := true } ::
              applyActs (pruneActs F bl pass ((applyActs (pruneActs F bl pass rest) T').map (·.url)))
                (applyActs (pruneActs F bl pass rest) T') := by
          show applyActs
              (pruneActs F bl pass ((applyActs (pruneActs F bl pass rest) T').map (·.url)))
              (markScannedRows u
                ({ r with scanned := true } :: applyActs (pruneActs F bl pass rest) T')) = _
          have hnoop : ∀ r' ∈ ({ r with scanned := true } ::
              applyActs (pruneActs F bl pass rest) T'), r'.url = u → r'.scanned = true := by
            intro r' hr' hurl
            rcases List.mem_cons.mp hr' with rfl | hr'
            · rfl
            · exact absurd hurl (habsT1 pass r' hr')
          rw [markScannedRows_noop hnoop]
          exact applyActs_cons_skip _ _ _ (hskip2 pass pass)
        rw [e2, ih pass T' hnd' hT']
      · have hc' : (pass.contains (generate_fingerprint u)
            || F.contains (generate_fingerprint u)) = false := by
          simpa using hc
        cases hb : bl u
        · -- run 1 records u's fingerprint; run 2 records it again identically
          rw [pruneActs_rec hc' hb]
          have e1 : applyActs (pruneActs F bl (generate_fingerprint u :: pass) rest) (r :: T')
              = r :: applyActs (pruneActs F bl (generate_fingerprint u :: pass) rest) T' :=
            applyActs_cons_skip _ _ _ (hskip1 (generate_fingerprint u :: pass))
          rw [e1]
          have hurl1 : (r :: applyActs (pruneActs F bl (generate_fingerprint u :: pass) rest) T').map (·.url)
              = u :: (applyActs (pruneActs F bl (generate_fingerprint u :: pass) rest) T').map (·.url) := by
            rw [List.map_cons]
            show r.url :: _ = _
            rw [hr]
          rw [hurl1, pruneActs_rec hc' hb]
          have e2 : applyActs
              (pruneActs F bl (generate_fingerprint u :: pass)
                ((applyActs (pruneActs F bl (generate_fingerprint u :: pass) rest) T').map (·.url)))
              (r :: applyActs (pruneActs F bl (generate_fingerprint u :: pass) rest) T')
              = r :: applyActs
                  (pruneActs F bl (generate_fingerprint u :: pass)
                    ((applyActs (pruneActs F bl (generate_fingerprint u :: pass) rest) T').map (·.url)))
                  (applyActs (pruneActs F bl (generate_fingerprint u :: pass) rest) T') :=
            applyActs_cons_skip _ _ _
              (hskip2 (generate_fingerprint u :: pass) (generate_fingerprint u :: pass))
          rw [e2, ih (generate_fingerprint u :: pass) T' hnd' hT']
        · -- run 1 deletes the blocklisted u; run 2 never sees it
          rw [pruneActs_del hc' hb]
          have e1 : applyActs (.del u :: pruneActs F bl pass rest) (r :: T')
              = applyActs (pruneActs F bl pass rest) T' := by
            show applyActs (pruneActs F bl pass rest) ((r :: T').filter fun r' => r'.url != u) = _
            rw [List.filter_cons, if_neg (by simp [hr]), filter_ne_absent habsT']
          rw [e1]
          exact ih pass T' hnd' hT'

/-- Claim C8: `prune` is idempotent — for every store whose urls are distinct
(the `url PRIMARY KEY` invariant) and any fixed composite blocklist predicate,
running `prune` twice with no intervening additions leaves exactly the state
of running it once: the second pass deletes no target and changes no scanned
flag (re-marking an already-scanned duplicate is a no-op). -/
theorem c8_prune_idempotent (bl : String → Bool) (s : Store)
    (hnd : (s.targets.map (·.url)).Nodup) :
    prune bl (prune bl s) = prune bl s := by
  have h1 : prune bl s
      = ⟨applyActs (pruneActs s.fingerprints bl [] (get_urls_plain s)) s.targets,
          s.fingerprints⟩ :=
    pruneLoop_eq_applyActs bl (get_urls_plain s) [] s
  have h2 : prune bl (prune bl s)
      = ⟨applyActs (pruneActs (prune bl s).fingerprints bl []
            (get_urls_plain (prune bl s))) (prune bl s).targets,
          (prune bl s).fingerprints⟩ :=
    pruneLoop_eq_applyActs bl (get_urls_plain (prune bl s)) [] (prune bl s)
  rw [h2]
  conv_lhs => rw [h1]
  conv_rhs => rw [h1]
  rw [Store.mk.injEq]
  refine ⟨?_, rfl⟩
  exact applyActs_prune_idem s.fingerprints bl (get_urls_plain s) [] s.targets hnd rfl

/-- Claim C8 witness: idempotence on a concrete store exercising the
duplicate-mark branch (two urls with equal fingerprints) and the
blocklist-delete branch. -/
theorem c8_prune_idempotent_witness :
    prune (fun u => u == "http://evil/p")
        (prune (fun u => u == "http://evil/p")
          ⟨[⟨"http://h/p?x=1", none, false⟩, ⟨"http://h/p?x=2", none, false⟩,
            ⟨"http://evil/p", none, false⟩], []⟩)
      = prune (fun u => u == "http://evil/p")
          ⟨[⟨"http://h/p?x=1", none, false⟩, ⟨"http://h/p?x=2", none, false⟩,
            ⟨"http://evil/p", none, false⟩], []⟩ :=
  c8_prune_idempotent (fun u => u == "http://evil/p")
    ⟨[⟨"http://h/p?x=1", none, false⟩, ⟨"http://h/p?x=2", none, false⟩,
      ⟨"http://evil/p", none, false⟩], []⟩ (by decide)

end Dorkbot
